import Mathlib

/-!
Verification of the deferred-value (Promise) implementation in `src/promise.js`.

The development shallow-embeds the pieces of the source that the claims are
about:

* the JavaScript value classification used by the module
  (`isObject`, `isFunction`, `typeof`, truthiness);
* the Promise state machine: `state` / `value` / `reason` /
  `fulfilledCallbacks` / `rejectedCallbacks`, the `resolve` and `reject`
  settlement entry points, the `then` dispatch, and the external microtask
  queue (`queueMicrotask`) — as a `Machine` holding a heap of promises, the
  FIFO microtask queue, and a log of executed handlers;
* the decision structure of `resolvePromise` as a pure function from the
  target id, the candidate value and the candidate's `then` property to the
  effect the procedure performs;
* the one-shot `called` guard wrapped around a foreign thenable's `then`
  invocation, as a fold over the chronological sequence of signals the
  foreign code emits;
* the four combinators `all`, `race`, `allSettled`, `any` as folds over the
  chronological sequence of settlement events `(input index, outcome)`
  delivered by the per-element `this.resolve(p).then(...)` subscriptions,
  with the shared counter / indexed-slot / one-shot-settle skeleton they all
  instantiate.
-/

/-! ### JavaScript values and the classification helpers (promise.js lines 1-2) -/

/-- A JavaScript value, as far as `promise.js` distinguishes them: primitives,
Promise instances (by heap id), other objects and functions (by id, with their
`then` property described by an environment), `TypeError`s and `new Error(v)`
wrappers. -/
inductive JSVal where
  | undefined
  | null
  | num (n : Int)
  | str (s : String)
  | boolean (b : Bool)
  | promiseRef (id : Nat)
  | objRef (id : Nat)
  | funcRef (id : Nat)
  | typeError (msg : String)
  | errObj (cause : JSVal)
deriving DecidableEq, Repr

/-- JavaScript `typeof`, restricted to the values modelled. -/
def typeofStr : JSVal → String
  | .undefined => "undefined"
  | .null => "object"
  | .num _ => "number"
  | .str _ => "string"
  | .boolean _ => "boolean"
  | .promiseRef _ => "object"
  | .objRef _ => "object"
  | .funcRef _ => "function"
  | .typeError _ => "object"
  | .errObj _ => "object"

/-- JavaScript truthiness of a modelled value. -/
def truthy : JSVal → Bool
  | .undefined => false
  | .null => false
  | .num n => n != 0
  | .str s => s != ""
  | .boolean b => b
  | .promiseRef _ => true
  | .objRef _ => true
  | .funcRef _ => true
  | .typeError _ => true
  | .errObj _ => true

/-- `const isObject = (obj) => obj && typeof obj === 'object'` (line 2).
In boolean position `obj &&` is truthiness; `null` is falsy, so `null` is not
an object here. -/
def isObject (x : JSVal) : Bool := truthy x && typeofStr x == "object"

/-- `const isFunction = (func) => typeof func === 'function'` (line 1). -/
def isFunction (x : JSVal) : Bool := typeofStr x == "function"

/-- `x instanceof Promise` for a modelled value. -/
def instanceofPromise : JSVal → Bool
  | .promiseRef _ => true
  | _ => false

/-! ### The `then` property of non-Promise objects/functions -/

/-- What reading `.then` on a candidate yields: a non-callable value, a getter
that throws, or a callable member (a foreign thenable). -/
inductive ThenProp where
  | noncallable (v : JSVal)
  | getterThrows (e : JSVal)
  | callableThen
deriving DecidableEq, Repr

/-- Environment assigning each object/function id its `then` property. -/
def ThenEnv : Type := Nat → ThenProp

/-- Reading `x.then` for the purposes of `resolvePromise`: objects and
functions answer through the environment; the other object-typed values
(`TypeError`, `Error`) carry no callable `then`. Primitives never reach this
read in `resolvePromise`. -/
def thenPropOf (env : ThenEnv) : JSVal → ThenProp
  | .objRef i => env i
  | .funcRef i => env i
  | _ => .noncallable .undefined

/-- The id carried by an object/function value. -/
def objId : JSVal → Nat
  | .objRef i => i
  | .funcRef i => i
  | _ => 0

/-! ### resolvePromise (promise.js lines 16-76) as an effect computation -/

/-- The cycle error of line 19: `new TypeError('Chaining cycle detected for promise')`. -/
def cycleError : JSVal := .typeError "Chaining cycle detected for promise"

/-- The synchronous effect `resolvePromise(promise, x, resolve, reject)`
performs, determined by its branch structure. -/
inductive RPEffect where
  | rejectWith (r : JSVal)
  | adoptPromise (pid : Nat)
  | invokeForeignThen (oid : Nat)
  | resolveWith (v : JSVal)
deriving DecidableEq, Repr

/-- The branch structure of `resolvePromise` (lines 16-76): cycle check
(2.3.1), Promise adoption via `x.then` (2.3.2), object/function with `then`
interrogation (2.3.3) — a throwing getter rejects, a callable `then` is
invoked as a foreign thenable, a non-callable `then` fulfills with `x` —
and the primitive fallthrough `resolve(x)` (2.3.4). -/
def resolvePromise (promiseId : Nat) (x : JSVal) (env : ThenEnv) : RPEffect :=
  if x = JSVal.promiseRef promiseId then
    .rejectWith cycleError
  else
    match x with
    | .promiseRef q => .adoptPromise q
    | _ =>
      if isObject x || isFunction x then
        match thenPropOf env x with
        | .getterThrows e => .rejectWith e
        | .callableThen => .invokeForeignThen (objId x)
        | .noncallable _ => .resolveWith x
      else
        .resolveWith x

/-! ### The one-shot guard around a foreign thenable (promise.js lines 46-66) -/

/-- A chronological signal observed by the guard around `then.call(x, ...)`:
the fulfill callback fires with `y`, the reject callback fires with `r`, or
the invocation itself throws `e`. -/
inductive TEvent where
  | callFulfill (y : JSVal)
  | callReject (r : JSVal)
  | invocationThrow (e : JSVal)
deriving DecidableEq, Repr

/-- An effect on the target promise produced by one of the three guarded
branches: re-invoking `resolvePromise(promise, y, resolve, reject)`, or
calling `reject`. -/
inductive TAction where
  | recurse (y : JSVal)
  | rejectTarget (r : JSVal)
deriving DecidableEq, Repr

/-- The effect each signal produces when it is the one that wins the guard:
`y => resolvePromise(promise, y, ...)`, `r => reject(r)`, `catch: reject(error)`. -/
def effectOf : TEvent → TAction
  | .callFulfill y => .recurse y
  | .callReject r => .rejectTarget r
  | .invocationThrow e => .rejectTarget e

/-- One guarded branch (lines 51-55, 56-60, 62-66): each checks `called`,
returns if set, otherwise sets it and acts. State: (`called`, actions so far). -/
def guardStep : Bool × List TAction → TEvent → Bool × List TAction
  | (called, acts), .callFulfill y =>
      if called then (called, acts) else (true, acts ++ [.recurse y])
  | (called, acts), .callReject r =>
      if called then (called, acts) else (true, acts ++ [.rejectTarget r])
  | (called, acts), .invocationThrow e =>
      if called then (called, acts) else (true, acts ++ [.rejectTarget e])

/-- The actions the guarded bridge performs on the target, given the
chronological signals from the foreign `then`, starting from `called = false`. -/
def runForeignThen (events : List TEvent) : List TAction :=
  (events.foldl guardStep (false, [])).2

/-! ### The Promise state machine (promise.js lines 78-201) -/

/-- The three states of line 5-7 (the source spells Pending `'pedding'`). -/
inductive PState where
  | pedding
  | fulfilled
  | rejected
deriving DecidableEq, Repr

/-- One promise's fields as set up by `initValue()` (lines 99-106): state,
value, reason, and the two callback queues. Queued thunks are identified by
tags (`Nat`); a thunk is an `onFulfilledMicrotask` / `onRejectedMicrotask`
closure of a `then` call, whose invocation enqueues its handler job on the
external microtask queue. -/
structure PromiseObj where
  state : PState
  value : JSVal
  reason : JSVal
  fulfilledCallbacks : List Nat
  rejectedCallbacks : List Nat
deriving DecidableEq, Repr

/-- A fresh promise as produced by `initValue()`: pending, `null` payloads,
empty queues. -/
def freshPromise : PromiseObj :=
  ⟨.pedding, .null, .null, [], []⟩

/-- The world the state machine acts on: the heap of promises (indexed by
id), the external FIFO microtask queue of pending handler jobs (by tag), and
the log of handler jobs that have actually executed, in execution order. -/
structure Machine where
  promises : List PromiseObj
  microtasks : List Nat
  executed : List Nat
deriving DecidableEq, Repr

/-- The `state` of promise `i`, if `i` is a live id. -/
def Machine.stateOf (m : Machine) (i : Nat) : Option PState :=
  (m.promises[i]?).map PromiseObj.state

/-- The `value` of promise `i`. -/
def Machine.valueOf (m : Machine) (i : Nat) : Option JSVal :=
  (m.promises[i]?).map PromiseObj.value

/-- The `reason` of promise `i`. -/
def Machine.reasonOf (m : Machine) (i : Nat) : Option JSVal :=
  (m.promises[i]?).map PromiseObj.reason

/-- The `fulfilledCallbacks` queue of promise `i`. -/
def Machine.fulfilledOf (m : Machine) (i : Nat) : Option (List Nat) :=
  (m.promises[i]?).map PromiseObj.fulfilledCallbacks

/-- The `rejectedCallbacks` queue of promise `i`. -/
def Machine.rejectedOf (m : Machine) (i : Nat) : Option (List Nat) :=
  (m.promises[i]?).map PromiseObj.rejectedCallbacks

/-- `resolve = value => {...}` (lines 120-129): only when still pending, store
`value`, set state to fulfilled, then `while (fulfilledCallbacks.length)
fulfilledCallbacks.shift()()` — each shifted thunk, invoked, enqueues its job
on the microtask queue, so the queue's tags move FIFO onto `microtasks` and
`fulfilledCallbacks` is left empty. `rejectedCallbacks` is not touched. -/
def Machine.resolveOp (m : Machine) (i : Nat) (v : JSVal) : Machine :=
  match m.promises[i]? with
  | none => m
  | some o =>
    if o.state = .pedding then
      { m with
        promises := m.promises.set i
          { o with state := .fulfilled, value := v, fulfilledCallbacks := [] },
        microtasks := m.microtasks ++ o.fulfilledCallbacks }
    else m

/-- `reject = reason => {...}` (lines 139-147): symmetric to `resolveOp`,
draining `rejectedCallbacks` and leaving `fulfilledCallbacks` untouched. -/
def Machine.rejectOp (m : Machine) (i : Nat) (r : JSVal) : Machine :=
  match m.promises[i]? with
  | none => m
  | some o =>
    if o.state = .pedding then
      { m with
        promises := m.promises.set i
          { o with state := .rejected, reason := r, rejectedCallbacks := [] },
        microtasks := m.microtasks ++ o.rejectedCallbacks }
    else m

/-- `then(onFulfilled, onRejected)` (lines 156-201): a new pending promise is
created (the executor runs synchronously); by the parent's current state, the
fulfilled thunk (`tagF`) is invoked now — enqueueing its job on the microtask
queue — or the rejected thunk (`tagR`) is, or, when pending, both thunks are
pushed onto the parent's two callback queues. No handler runs here. -/
def Machine.thenOp (m : Machine) (parent : Nat) (tagF tagR : Nat) : Machine :=
  match m.promises[parent]? with
  | none => m
  | some o =>
    let m' : Machine := { m with promises := m.promises ++ [freshPromise] }
    match o.state with
    | .fulfilled => { m' with microtasks := m'.microtasks ++ [tagF] }
    | .rejected => { m' with microtasks := m'.microtasks ++ [tagR] }
    | .pedding =>
      { m' with
        promises := m'.promises.set parent
          { o with
            fulfilledCallbacks := o.fulfilledCallbacks ++ [tagF],
            rejectedCallbacks := o.rejectedCallbacks ++ [tagR] } }

/-- The external scheduler running the front job of the microtask queue:
the job's handler executes (recorded in the log). -/
def Machine.runMicrotask (m : Machine) : Machine :=
  match m.microtasks with
  | [] => m
  | t :: rest => { m with microtasks := rest, executed := m.executed ++ [t] }

/-- Running the scheduler for `k` steps. -/
def Machine.drainSteps : Nat → Machine → Machine
  | 0, m => m
  | k + 1, m => Machine.drainSteps k m.runMicrotask

/-! ### Combinator event semantics (promise.js lines 284-407)

Each combinator subscribes `this.resolve(p).then(onOk, onErr)` to every input
position; the subscriptions deliver a chronological stream of settlement
events `(input index, outcome)` — at most one per position, indices below the
input length. The closures over `total`, `results` and the outer promise's
one-shot `resolve` / `reject` are folds over that stream. -/

/-- The settlement outcome a normalized input delivers to its subscription. -/
inductive Outcome where
  | fulfilledO (v : JSVal)
  | rejectedO (r : JSVal)
deriving DecidableEq, Repr

/-- The outer promise's one-shot settlement entry points: only the first
`resolve` / `reject` call has effect (lines 121, 140). -/
def oneShot {β : Type} (st : Option β) (b : β) : Option β :=
  match st with
  | none => some b
  | some s => some s

/-- The mutable closure state shared by a combinator's subscriptions:
the completion counter `total`, the indexed result slots (`results[i] = ...`),
and the outer promise's settled result, if settled. -/
structure CollectState (α β : Type) where
  total : Nat
  slots : List (Option α)
  settled : Option β
deriving DecidableEq, Repr

/-- One subscription callback firing, shared shape of `all` / `allSettled` /
`any`: an outcome the combinator *records* writes its value into slot `i`,
bumps `total`, and — exactly when `++total === n` — settles the outer promise
with `finish slots` (one-shot); an outcome the combinator *short-circuits* on
settles the outer promise at once (one-shot); the closure state is otherwise
unchanged. -/
def collectStep {α β : Type} (n : Nat) (record : Outcome → Option α)
    (short : Outcome → Option β) (finish : List (Option α) → β)
    (st : CollectState α β) (ev : Nat × Outcome) : CollectState α β :=
  match record ev.2 with
  | some a =>
    let slots := st.slots.set ev.1 (some a)
    let total := st.total + 1
    { total := total, slots := slots,
      settled := if total = n then oneShot st.settled (finish slots) else st.settled }
  | none =>
    match short ev.2 with
    | some b => { st with settled := oneShot st.settled b }
    | none => st

/-- Folding a combinator's closures over the event stream, from the initial
state: counter `0`, `n` empty slots, outer promise pending. -/
def collectRun {α β : Type} (n : Nat) (record : Outcome → Option α)
    (short : Outcome → Option β) (finish : List (Option α) → β)
    (events : List (Nat × Outcome)) : CollectState α β :=
  events.foldl (collectStep n record short finish) ⟨0, List.replicate n none, none⟩

/-- `Promise.all` records fulfillments: `results[i] = value` (line 302). -/
def allRecord : Outcome → Option JSVal
  | .fulfilledO v => some v
  | .rejectedO _ => none

/-- `Promise.all` short-circuits on a rejection: `reject(reason)` (line 309). -/
def allShort : Outcome → Option (Except JSVal (List (Option JSVal)))
  | .fulfilledO _ => none
  | .rejectedO r => some (.error r)

/-- `Promise.all(promises)` (lines 284-313): result of the outer promise given
`n` inputs and the event stream; the empty input returns `this.resolve([])`
before any subscription is created (line 294). -/
def allResult (n : Nat) (events : List (Nat × Outcome)) :
    Option (Except JSVal (List (Option JSVal))) :=
  if n = 0 then some (.ok [])
  else (collectRun n allRecord allShort Except.ok events).settled

/-- A settlement record of `Promise.allSettled` (lines 359, 364). -/
inductive SettleRec where
  | fulfilledR (v : JSVal)
  | rejectedR (r : JSVal)
deriving DecidableEq, Repr

/-- `Promise.allSettled` records both outcomes as status records. -/
def allSettledRecord : Outcome → Option SettleRec
  | .fulfilledO v => some (.fulfilledR v)
  | .rejectedO r => some (.rejectedR r)

/-- `Promise.allSettled` never short-circuits (it never rejects). -/
def allSettledShort : Outcome → Option (List (Option SettleRec)) :=
  fun _ => none

/-- `Promise.allSettled(promises)` (lines 344-370): the empty input returns
`this.resolve([])` before any subscription (line 353). -/
def allSettledResult (n : Nat) (events : List (Nat × Outcome)) :
    Option (List (Option SettleRec)) :=
  if n = 0 then some []
  else (collectRun n allSettledRecord allSettledShort id events).settled

/-- `Promise.any` records rejections, wrapped `new Error(reason)` into the
aggregate's slot `i` (line 401). -/
def anyRecord : Outcome → Option JSVal
  | .fulfilledO _ => none
  | .rejectedO r => some (.errObj r)

/-- `Promise.any` short-circuits on the first fulfillment: `resolve(value)`
(line 398). -/
def anyShort : Outcome → Option (Except (List (Option JSVal)) JSVal)
  | .fulfilledO v => some (.ok v)
  | .rejectedO _ => none

/-- `Promise.any(promises)` (lines 381-407): the aggregate (indexed slots of
`Error`-wrapped reasons) rejects the outer promise once all `n` inputs have
rejected; the empty input returns `this.reject(emptyAggregate)` before any
subscription (line 392). -/
def anyResult (n : Nat) (events : List (Nat × Outcome)) :
    Option (Except (List (Option JSVal)) JSVal) :=
  if n = 0 then some (.error [])
  else (collectRun n anyRecord anyShort Except.error events).settled

/-- One `Promise.race` subscription firing: `this.resolve(p).then(resolve,
reject)` (line 331) — either outcome settles the outer promise one-shot. -/
def raceStep (st : Option (Except JSVal JSVal)) (ev : Nat × Outcome) :
    Option (Except JSVal JSVal) :=
  match ev.2 with
  | .fulfilledO v => oneShot st (.ok v)
  | .rejectedO r => oneShot st (.error r)

/-- `Promise.race(promises)` (lines 322-334): no empty-input special case —
the outer promise simply never receives an event and stays pending. -/
def raceResult (events : List (Nat × Outcome)) : Option (Except JSVal JSVal) :=
  events.foldl raceStep none

/-- The slot list reached after the positions in `done` have recorded their
values (`f i` at position `i`): the indexed-assignment image of `results`. -/
def mask {α : Type} (n : Nat) (f : Nat → α) (done : List Nat) : List (Option α) :=
  (List.range n).map (fun j => if j ∈ done then some (f j) else none)

/-! ### Helper lemmas on the one-shot guard -/

/-- Once `called` is set, every further signal is skipped and the action list
is frozen. -/
theorem guardFold_called (events : List TEvent) (acts : List TAction) :
    events.foldl guardStep (true, acts) = (true, acts) := by
  induction events with
  | nil => rfl
  | cons e rest ih => cases e <;> simpa [guardStep] using ih

/-! ### Helper lemmas on the state machine -/

/-- `resolve` on a pending promise: explicit result machine. -/
theorem resolveOp_pending (m : Machine) (i : Nat) (v : JSVal) (o : PromiseObj)
    (h : m.promises[i]? = some o) (hs : o.state = PState.pedding) :
    m.resolveOp i v =
      { m with
        promises := m.promises.set i
          { o with state := .fulfilled, value := v, fulfilledCallbacks := [] },
        microtasks := m.microtasks ++ o.fulfilledCallbacks } := by
  simp [Machine.resolveOp, h, hs]

/-- `reject` on a pending promise: explicit result machine. -/
theorem rejectOp_pending (m : Machine) (i : Nat) (r : JSVal) (o : PromiseObj)
    (h : m.promises[i]? = some o) (hs : o.state = PState.pedding) :
    m.rejectOp i r =
      { m with
        promises := m.promises.set i
          { o with state := .rejected, reason := r, rejectedCallbacks := [] },
        microtasks := m.microtasks ++ o.rejectedCallbacks } := by
  simp [Machine.rejectOp, h, hs]

/-- `then` on a pending parent: both thunks are queued, nothing else changes. -/
theorem thenOp_pending (m : Machine) (p a b : Nat) (o : PromiseObj)
    (h : m.promises[p]? = some o) (hs : o.state = PState.pedding) :
    m.thenOp p a b =
      { m with
        promises := (m.promises ++ [freshPromise]).set p
          { o with
            fulfilledCallbacks := o.fulfilledCallbacks ++ [a],
            rejectedCallbacks := o.rejectedCallbacks ++ [b] } } := by
  simp [Machine.thenOp, h, hs]

/-- `then` on a fulfilled parent: the fulfilled thunk is invoked, which only
enqueues its job on the microtask queue. -/
theorem thenOp_fulfilled (m : Machine) (p a b : Nat) (o : PromiseObj)
    (h : m.promises[p]? = some o) (hs : o.state = PState.fulfilled) :
    m.thenOp p a b =
      { m with
        promises := m.promises ++ [freshPromise],
        microtasks := m.microtasks ++ [a] } := by
  simp [Machine.thenOp, h, hs]

/-- No `then` call ever executes a handler. -/
theorem thenOp_executed (m : Machine) (p a b : Nat) :
    (m.thenOp p a b).executed = m.executed := by
  unfold Machine.thenOp
  cases m.promises[p]? with
  | none => rfl
  | some o => cases hs : o.state <;> simp [hs]

/-- No `resolve` call ever executes a handler. -/
theorem resolveOp_executed (m : Machine) (i : Nat) (v : JSVal) :
    (m.resolveOp i v).executed = m.executed := by
  unfold Machine.resolveOp
  cases m.promises[i]? with
  | none => rfl
  | some o => by_cases hs : o.state = PState.pedding <;> simp [hs]

/-- No `reject` call ever executes a handler. -/
theorem rejectOp_executed (m : Machine) (i : Nat) (r : JSVal) :
    (m.rejectOp i r).executed = m.executed := by
  unfold Machine.rejectOp
  cases m.promises[i]? with
  | none => rfl
  | some o => by_cases hs : o.state = PState.pedding <;> simp [hs]

/-- Draining three queued jobs executes them in queue order. -/
theorem drain_three (m : Machine) (t1 t2 t3 : Nat) (h : m.microtasks = [t1, t2, t3]) :
    (Machine.drainSteps 3 m).executed = m.executed ++ [t1, t2, t3] := by
  simp [Machine.drainSteps, Machine.runMicrotask, h]

/-! ### The claims -/

/-- C5: when the Resolution Procedure invokes a foreign thenable's `then`,
only the first of (a) the fulfill callback firing (which re-invokes the
Resolution Procedure), (b) the reject callback firing, (c) the invocation
itself throwing, has any effect on the target; all later or duplicate
signals are ignored — in particular a throw after a callback already fired
is ignored, while a throw before any callback fires rejects the target with
that error. Formally: the guarded bridge performs exactly the effect of the
first chronological signal, and nothing for the signals after it. -/
theorem c5_thenable_first_signal_wins (events : List TEvent) :
    runForeignThen events = (events.head?.map effectOf).toList := by
  cases events with
  | nil => rfl
  | cons e rest =>
    cases e <;>
      simp [runForeignThen, guardStep, guardFold_called, effectOf]

/-- C4: invoking the Resolution Procedure with a candidate referentially
identical to its target takes the first branch and rejects the target with
the cycle-detected `TypeError` at once (so it cannot hang); feeding that
rejection to a pending target settles it Rejected with that error. -/
theorem c4_cycle_rejects (t : Nat) (env : ThenEnv) (m : Machine) (o : PromiseObj)
    (h : m.promises[t]? = some o) (hs : o.state = PState.pedding) :
    resolvePromise t (.promiseRef t) env = .rejectWith cycleError ∧
    cycleError = .typeError "Chaining cycle detected for promise" ∧
    (m.rejectOp t cycleError).stateOf t = some PState.rejected ∧
    (m.rejectOp t cycleError).reasonOf t = some cycleError := by
  refine ⟨by simp [resolvePromise], rfl, ?_, ?_⟩ <;>
    simp [rejectOp_pending m t cycleError o h hs, Machine.stateOf, Machine.reasonOf,
      List.getElem?_set_self', h]

/-- C4 witness: a concrete pending promise rejected through the cycle branch. -/
theorem c4_witness :
    ((Machine.mk [freshPromise] [] []).promises[0]? = some freshPromise) ∧
    freshPromise.state = PState.pedding ∧
    resolvePromise 0 (.promiseRef 0) (fun _ => ThenProp.noncallable .undefined)
      = .rejectWith cycleError ∧
    ((Machine.mk [freshPromise] [] []).rejectOp 0 cycleError).stateOf 0
      = some PState.rejected := by
  have h := c4_cycle_rejects 0 (fun _ => ThenProp.noncallable .undefined)
    (Machine.mk [freshPromise] [] []) freshPromise (by decide) (by decide)
  exact ⟨by decide, by decide, h.1, h.2.2.1⟩

/-- C10: the Resolution Procedure on a candidate that is neither an object
nor callable (in particular `null` and `undefined`) fulfills the target
directly with that candidate, independent of every `then` environment — no
`then` member is read, and the computation is total (it cannot throw).
`null` is classified as a primitive by the object test. -/
theorem c10_primitive_direct_fulfill (t : Nat) (x : JSVal) (env : ThenEnv)
    (h1 : isObject x = false) (h2 : isFunction x = false) :
    resolvePromise t x env = .resolveWith x ∧ isObject JSVal.null = false := by
  refine ⟨?_, rfl⟩
  cases x <;> simp_all [resolvePromise, isObject, isFunction, truthy, typeofStr]

/-- C10 witness: `null` as candidate, under an adversarial environment in
which every object claims a callable `then`. -/
theorem c10_witness :
    isObject JSVal.null = false ∧ isFunction JSVal.null = false ∧
    resolvePromise 0 JSVal.null (fun _ => ThenProp.callableThen)
      = .resolveWith JSVal.null :=
  ⟨rfl, rfl, (c10_primitive_direct_fulfill 0 JSVal.null
    (fun _ => ThenProp.callableThen) rfl rfl).1⟩

/-- C2: the state is monotonic — once a promise is no longer pending, any
invocation of either settlement entry point with any payload leaves the
whole machine literally unchanged (a no-op: zero effect on state, value,
reason, queues and the scheduler). -/
theorem c2_settled_noop (m : Machine) (i : Nat) (v r : JSVal)
    (h : m.stateOf i ≠ some PState.pedding) :
    m.resolveOp i v = m ∧ m.rejectOp i r = m := by
  unfold Machine.resolveOp Machine.rejectOp
  cases ho : m.promises[i]? with
  | none => exact ⟨rfl, rfl⟩
  | some o =>
    have hs : ¬ o.state = PState.pedding := by
      intro hs
      exact h (by simp [Machine.stateOf, ho, hs])
    simp [hs]

/-- C2 witness: duplicate fulfill and opposite reject on a fulfilled promise
change nothing. -/
theorem c2_witness :
    (Machine.mk [PromiseObj.mk PState.fulfilled (JSVal.num 5) JSVal.null [] [7]] [] []).stateOf 0
      ≠ some PState.pedding ∧
    ((Machine.mk [PromiseObj.mk PState.fulfilled (JSVal.num 5) JSVal.null [] [7]] [] []).resolveOp 0 (JSVal.num 9)
      = Machine.mk [PromiseObj.mk PState.fulfilled (JSVal.num 5) JSVal.null [] [7]] [] [] ∧
     (Machine.mk [PromiseObj.mk PState.fulfilled (JSVal.num 5) JSVal.null [] [7]] [] []).rejectOp 0 (JSVal.str "x")
      = Machine.mk [PromiseObj.mk PState.fulfilled (JSVal.num 5) JSVal.null [] [7]] [] []) :=
  ⟨by decide, c2_settled_noop _ 0 _ _ (by decide)⟩

/-- C1 counterexample: `resolve` does not run the Resolution Procedure. A
pending promise 0 resolved with the (still pending) promise 1 is fulfilled
immediately, with the promise object itself as its value, while promise 1 has
not settled — contradicting "fulfillment is not immediate but deferred until
x settles". -/
theorem c1_counterexample :
    ((Machine.mk [freshPromise, freshPromise] [] []).resolveOp 0 (.promiseRef 1)).stateOf 0
      = some PState.fulfilled ∧
    ((Machine.mk [freshPromise, freshPromise] [] []).resolveOp 0 (.promiseRef 1)).valueOf 0
      = some (.promiseRef 1) ∧
    ((Machine.mk [freshPromise, freshPromise] [] []).resolveOp 0 (.promiseRef 1)).stateOf 1
      = some PState.pedding := by
  decide

/-- C1 amended: invoking the fulfill entry point of a pending Deferred Value
with any candidate `x` — thenable or not — fulfills it immediately and
synchronously with `x` itself as the payload; the fulfill entry point never
invokes the Resolution Procedure (which runs only on handler return values
inside `then`'s scheduled jobs). -/
theorem c1_amended_fulfill_immediate (m : Machine) (i : Nat) (v : JSVal) (o : PromiseObj)
    (h : m.promises[i]? = some o) (hs : o.state = PState.pedding) :
    (m.resolveOp i v).stateOf i = some PState.fulfilled ∧
    (m.resolveOp i v).valueOf i = some v := by
  constructor <;>
    simp [resolveOp_pending m i v o h hs, Machine.stateOf, Machine.valueOf,
      List.getElem?_set_self', h]

/-- C1 witness: the amended behavior at the counterexample's input. -/
theorem c1_witness :
    ((Machine.mk [freshPromise, freshPromise] [] []).promises[0]? = some freshPromise) ∧
    freshPromise.state = PState.pedding ∧
    ((Machine.mk [freshPromise, freshPromise] [] []).resolveOp 0 (.promiseRef 1)).stateOf 0
      = some PState.fulfilled ∧
    ((Machine.mk [freshPromise, freshPromise] [] []).resolveOp 0 (.promiseRef 1)).valueOf 0
      = some (.promiseRef 1) := by
  have h := c1_amended_fulfill_immediate (Machine.mk [freshPromise, freshPromise] [] [])
    0 (.promiseRef 1) freshPromise (by decide) (by decide)
  exact ⟨by decide, by decide, h.1, h.2⟩

/-- C3 counterexample: settling drains only the queue that matches the
outcome. A pending promise with one `then` attached (one thunk in each
queue), when fulfilled, is left with an *empty* fulfilled queue but its
rejected queue still holding its thunk — contradicting "both the fulfilled
queue and the rejected queue are fully drained and left empty". -/
theorem c3_counterexample :
    (((Machine.mk [freshPromise] [] []).thenOp 0 10 11).resolveOp 0 (.num 1)).stateOf 0
      = some PState.fulfilled ∧
    (((Machine.mk [freshPromise] [] []).thenOp 0 10 11).resolveOp 0 (.num 1)).fulfilledOf 0
      = some [] ∧
    (((Machine.mk [freshPromise] [] []).thenOp 0 10 11).resolveOp 0 (.num 1)).rejectedOf 0
      = some [11] ∧
    some [11] ≠ some ([] : List Nat) := by
  decide

/-- C3 amended: when a pending Deferred Value settles, only the queue
matching the outcome is drained (its thunks enqueued FIFO on the scheduler)
and left empty; the opposite queue retains its thunks unexecuted; and a
`then` call arriving after settlement enqueues onto neither queue. -/
theorem c3_amended_single_queue_drain (m : Machine) (i a b : Nat) (v r : JSVal) (o : PromiseObj)
    (h : m.promises[i]? = some o) (hs : o.state = PState.pedding) :
    ((m.resolveOp i v).fulfilledOf i = some [] ∧
     (m.resolveOp i v).rejectedOf i = some o.rejectedCallbacks ∧
     (m.resolveOp i v).microtasks = m.microtasks ++ o.fulfilledCallbacks ∧
     ((m.resolveOp i v).thenOp i a b).fulfilledOf i = some [] ∧
     ((m.resolveOp i v).thenOp i a b).rejectedOf i = some o.rejectedCallbacks) ∧
    ((m.rejectOp i r).rejectedOf i = some [] ∧
     (m.rejectOp i r).fulfilledOf i = some o.fulfilledCallbacks ∧
     (m.rejectOp i r).microtasks = m.microtasks ++ o.rejectedCallbacks) := by
  have hlen : i < m.promises.length := (List.getElem?_eq_some_iff.mp h).1
  have h1 := resolveOp_pending m i v o h hs
  have h2 := rejectOp_pending m i r o h hs
  rw [h1, h2]
  have hro : (m.promises.set i
        { o with state := PState.fulfilled, value := v, fulfilledCallbacks := [] })[i]?
      = some { o with state := PState.fulfilled, value := v, fulfilledCallbacks := [] } :=
    List.getElem?_set_self (by simpa using hlen)
  have hrj : (m.promises.set i
        { o with state := PState.rejected, reason := r, rejectedCallbacks := [] })[i]?
      = some { o with state := PState.rejected, reason := r, rejectedCallbacks := [] } :=
    List.getElem?_set_self (by simpa using hlen)
  have h3 := thenOp_fulfilled
    { m with
      promises := m.promises.set i
        { o with state := PState.fulfilled, value := v, fulfilledCallbacks := [] },
      microtasks := m.microtasks ++ o.fulfilledCallbacks } i a b
    { o with state := PState.fulfilled, value := v, fulfilledCallbacks := [] }
    (by simpa using hro) rfl
  rw [h3]
  have happ : ((m.promises.set i
        { o with state := PState.fulfilled, value := v, fulfilledCallbacks := [] })
        ++ [freshPromise])[i]?
      = (m.promises.set i
        { o with state := PState.fulfilled, value := v, fulfilledCallbacks := [] })[i]? :=
    List.getElem?_append_left (by simpa using hlen)
  refine ⟨⟨?_, ?_, rfl, ?_, ?_⟩, ?_, ?_, rfl⟩ <;>
    simp [Machine.fulfilledOf, Machine.rejectedOf, hro, hrj, happ]

/-- C3 witness: the amended drain behavior at the counterexample's input. -/
theorem c3_witness :
    (((Machine.mk [PromiseObj.mk PState.pedding JSVal.null JSVal.null [10] [11]] [] []).promises[0]?
       = some (PromiseObj.mk PState.pedding JSVal.null JSVal.null [10] [11])) ∧
     (PromiseObj.mk PState.pedding JSVal.null JSVal.null [10] [11]).state = PState.pedding) ∧
    ((Machine.mk [PromiseObj.mk PState.pedding JSVal.null JSVal.null [10] [11]] [] []).resolveOp 0 (.num 1)).fulfilledOf 0 = some [] ∧
    ((Machine.mk [PromiseObj.mk PState.pedding JSVal.null JSVal.null [10] [11]] [] []).resolveOp 0 (.num 1)).rejectedOf 0 = some [11] ∧
    ((Machine.mk [PromiseObj.mk PState.pedding JSVal.null JSVal.null [10] [11]] [] []).rejectOp 0 (.str "e")).microtasks = [11] := by
  have h := c3_amended_single_queue_drain
    (Machine.mk [PromiseObj.mk PState.pedding JSVal.null JSVal.null [10] [11]] [] [])
    0 20 21 (.num 1) (.str "e")
    (PromiseObj.mk PState.pedding JSVal.null JSVal.null [10] [11]) (by decide) (by decide)
  exact ⟨⟨by decide, by decide⟩, h.1.1, h.1.2.1, h.2.2.2⟩

/-- Queue lookup after a `then` on a pending parent. -/
theorem thenOp_pending_lookup (m : Machine) (p a b : Nat) (o : PromiseObj)
    (h : m.promises[p]? = some o) (hs : o.state = PState.pedding) :
    (m.thenOp p a b).promises[p]?
      = some { o with fulfilledCallbacks := o.fulfilledCallbacks ++ [a],
                      rejectedCallbacks := o.rejectedCallbacks ++ [b] } := by
  have hlen : p < m.promises.length := (List.getElem?_eq_some_iff.mp h).1
  rw [thenOp_pending m p a b o h hs]
  exact List.getElem?_set_self (by simp; omega)

/-- A `then` on a pending parent does not touch the microtask queue. -/
theorem thenOp_pending_micro (m : Machine) (p a b : Nat) (o : PromiseObj)
    (h : m.promises[p]? = some o) (hs : o.state = PState.pedding) :
    (m.thenOp p a b).microtasks = m.microtasks := by
  rw [thenOp_pending m p a b o h hs]

/-- C6: handlers attached by `then` execute only via the external microtask
scheduler, never synchronously inside the `then` call (even on an
already-settled parent, where the thunk fires at once but only *enqueues* the
job) nor inside `resolve`/`reject`; and three `then` calls A, B, C attached
to a pending promise before settlement have their jobs queued — and hence
executed by the scheduler — in attachment order A, B, C. -/
theorem c6_handlers_async_fifo (m : Machine) (p q : Nat) (v : JSVal)
    (a1 b1 a2 b2 a3 b3 : Nat) (o oq : PromiseObj)
    (hp : m.promises[p]? = some o) (hps : o.state = PState.pedding)
    (hfc : o.fulfilledCallbacks = []) (hmt : m.microtasks = [])
    (hq : m.promises[q]? = some oq) (hqs : oq.state = PState.fulfilled) :
    (m.thenOp p a1 b1).executed = m.executed ∧
    (m.resolveOp p v).executed = m.executed ∧
    (m.rejectOp p v).executed = m.executed ∧
    (m.thenOp q a1 b1).executed = m.executed ∧
    (m.thenOp q a1 b1).microtasks = m.microtasks ++ [a1] ∧
    (((m.thenOp p a1 b1).thenOp p a2 b2).thenOp p a3 b3).executed = m.executed ∧
    ((((m.thenOp p a1 b1).thenOp p a2 b2).thenOp p a3 b3).resolveOp p v).microtasks
      = [a1, a2, a3] ∧
    ((((m.thenOp p a1 b1).thenOp p a2 b2).thenOp p a3 b3).resolveOp p v).executed
      = m.executed ∧
    (Machine.drainSteps 3
        ((((m.thenOp p a1 b1).thenOp p a2 b2).thenOp p a3 b3).resolveOp p v)).executed
      = m.executed ++ [a1, a2, a3] := by
  have k1 := thenOp_pending_lookup m p a1 b1 o hp hps
  have k2 := thenOp_pending_lookup (m.thenOp p a1 b1) p a2 b2 _ k1 hps
  have k3 := thenOp_pending_lookup ((m.thenOp p a1 b1).thenOp p a2 b2) p a3 b3 _ k2 hps
  have u1 := thenOp_pending_micro m p a1 b1 o hp hps
  have u2 := thenOp_pending_micro (m.thenOp p a1 b1) p a2 b2 _ k1 hps
  have u3 := thenOp_pending_micro ((m.thenOp p a1 b1).thenOp p a2 b2) p a3 b3 _ k2 hps
  have hm3 : (((m.thenOp p a1 b1).thenOp p a2 b2).thenOp p a3 b3).microtasks = [] := by
    rw [u3, u2, u1, hmt]
  have hres := resolveOp_pending (((m.thenOp p a1 b1).thenOp p a2 b2).thenOp p a3 b3)
    p v _ k3 hps
  have hmicro : ((((m.thenOp p a1 b1).thenOp p a2 b2).thenOp p a3 b3).resolveOp p v).microtasks
      = [a1, a2, a3] := by
    rw [hres]
    simp [hm3, hfc]
  have hexec : ((((m.thenOp p a1 b1).thenOp p a2 b2).thenOp p a3 b3).resolveOp p v).executed
      = m.executed := by
    simp [resolveOp_executed, thenOp_executed]
  refine ⟨thenOp_executed m p a1 b1, resolveOp_executed m p v, rejectOp_executed m p v,
    thenOp_executed m q a1 b1, ?_, by simp [thenOp_executed], hmicro, hexec, ?_⟩
  · rw [thenOp_fulfilled m q a1 b1 oq hq hqs]
  · rw [drain_three _ a1 a2 a3 hmicro, hexec]

/-- C6 witness: a machine with a pending promise 0 and a fulfilled promise 1;
three chains on 0 tagged 10, 20, 30 then settlement, and a chain on the
settled 1. -/
theorem c6_witness :
    ((Machine.mk [freshPromise, PromiseObj.mk PState.fulfilled (JSVal.num 1) JSVal.null [] []] [] []).promises[0]?
      = some freshPromise) ∧
    freshPromise.state = PState.pedding ∧
    freshPromise.fulfilledCallbacks = [] ∧
    (Machine.mk [freshPromise, PromiseObj.mk PState.fulfilled (JSVal.num 1) JSVal.null [] []] [] []).microtasks = [] ∧
    ((Machine.mk [freshPromise, PromiseObj.mk PState.fulfilled (JSVal.num 1) JSVal.null [] []] [] []).promises[1]?
      = some (PromiseObj.mk PState.fulfilled (JSVal.num 1) JSVal.null [] [])) ∧
    (PromiseObj.mk PState.fulfilled (JSVal.num 1) JSVal.null [] []).state = PState.fulfilled ∧
    (((((Machine.mk [freshPromise, PromiseObj.mk PState.fulfilled (JSVal.num 1) JSVal.null [] []] [] []).thenOp 0 10 11).thenOp 0 20 21).thenOp 0 30 31).resolveOp 0 (JSVal.num 7)).microtasks
      = [10, 20, 30] ∧
    (Machine.drainSteps 3
        (((((Machine.mk [freshPromise, PromiseObj.mk PState.fulfilled (JSVal.num 1) JSVal.null [] []] [] []).thenOp 0 10 11).thenOp 0 20 21).thenOp 0 30 31).resolveOp 0 (JSVal.num 7))).executed
      = [10, 20, 30] := by
  have h := c6_handlers_async_fifo
    (Machine.mk [freshPromise, PromiseObj.mk PState.fulfilled (JSVal.num 1) JSVal.null [] []] [] [])
    0 1 (JSVal.num 7) 10 11 20 21 30 31 freshPromise
    (PromiseObj.mk PState.fulfilled (JSVal.num 1) JSVal.null [] [])
    (by decide) rfl rfl rfl (by decide) rfl
  exact ⟨by decide, rfl, rfl, rfl, by decide, rfl,
    h.2.2.2.2.2.2.1, h.2.2.2.2.2.2.2.2⟩

/-! ### Helper lemmas on the combinator fold -/

/-- The outer promise settles one-shot: once settled, no later subscription
event changes the result. -/
theorem collectFold_settled_some {α β : Type} (n : Nat) (record : Outcome → Option α)
    (short : Outcome → Option β) (finish : List (Option α) → β)
    (events : List (Nat × Outcome)) :
    ∀ (st : CollectState α β) (b : β), st.settled = some b →
      (events.foldl (collectStep n record short finish) st).settled = some b := by
  induction events with
  | nil => intro st b h; exact h
  | cons e rest ih =>
    intro st b h
    apply ih
    cases hrec : record e.2 with
    | some a => simp [collectStep, hrec, h, oneShot]
    | none =>
      cases hsh : short e.2 with
      | some b2 => simp [collectStep, hrec, hsh, h, oneShot]
      | none => simp [collectStep, hrec, hsh, h]

/-- A run of recorded events too short to reach the counter target neither
settles the outer promise nor miscounts: `total` advances by exactly one per
event. -/
theorem collectFold_no_trigger {α β : Type} (n : Nat) (record : Outcome → Option α)
    (short : Outcome → Option β) (finish : List (Option α) → β)
    (events : List (Nat × Outcome)) :
    ∀ (st : CollectState α β),
      st.settled = none →
      (∀ p ∈ events, (record p.2).isSome) →
      st.total + events.length < n →
      (events.foldl (collectStep n record short finish) st).settled = none ∧
      (events.foldl (collectStep n record short finish) st).total
        = st.total + events.length := by
  induction events with
  | nil => intro st h _ _; exact ⟨h, rfl⟩
  | cons e rest ih =>
    intro st h hrec hlt
    obtain ⟨a, ha⟩ : ∃ a, record e.2 = some a :=
      Option.isSome_iff_exists.mp (hrec e (List.mem_cons_self e rest))
    have hne : st.total + 1 ≠ n := by
      simp only [List.length_cons] at hlt; omega
    have hstep : collectStep n record short finish st e
        = ⟨st.total + 1, st.slots.set e.1 (some a), st.settled⟩ := by
      simp [collectStep, ha, hne]
    rw [List.foldl_cons, hstep]
    have hres := ih ⟨st.total + 1, st.slots.set e.1 (some a), st.settled⟩
      (by simpa using h)
      (fun p hp => hrec p (List.mem_cons_of_mem e hp))
      (by show st.total + 1 + rest.length < n
          simp only [List.length_cons] at hlt; omega)
    refine ⟨hres.1, ?_⟩
    rw [hres.2]
    show st.total + 1 + rest.length = st.total + (e :: rest).length
    simp only [List.length_cons]; omega

/-- Writing slot `i` of the indexed-assignment image adds `i` to the set of
filled positions. -/
theorem mask_set {α : Type} (n : Nat) (f : Nat → α) (done : List Nat) (i : Nat)
    (_hi : i < n) :
    (mask n f done).set i (some (f i)) = mask n f (done ++ [i]) := by
  apply List.ext_getElem
  · simp [mask]
  · intro j h1 h2
    rw [List.getElem_set]
    by_cases hij : i = j
    · subst hij
      simp [mask]
    · rw [if_neg hij]
      simp [mask, List.mem_append, (Ne.symm hij : j ≠ i)]

/-- No position filled yet: the slots are the fresh `results` array. -/
theorem mask_nil {α : Type} (n : Nat) (f : Nat → α) :
    mask n f [] = List.replicate n none := by
  simp [mask]

/-- Every position filled: the slots are the fully populated ordered results. -/
theorem mask_full {α : Type} (n : Nat) (f : Nat → α) (done : List Nat)
    (h : ∀ j, j < n → j ∈ done) :
    mask n f done = (List.range n).map (fun j => some (f j)) := by
  unfold mask
  exact List.map_congr_left (fun j hj => by simp [h j (List.mem_range.mp hj)])

/-- Core counting argument: starting from `done` positions already recorded,
a non-empty run of recorded events whose count brings the total exactly to
`n` fills its slots by index and settles the outer promise, at the last
event, with `finish` of the fully updated slots — whatever order the events
arrive in. -/
theorem collect_perm_aux {α β : Type} (n : Nat) (record : Outcome → Option α)
    (short : Outcome → Option β) (finish : List (Option α) → β) (f : Nat → α) :
    ∀ (events : List (Nat × Outcome)) (done : List Nat),
      events ≠ [] →
      done.length + events.length = n →
      (∀ p ∈ events, p.1 < n) →
      (∀ p ∈ events, record p.2 = some (f p.1)) →
      events.foldl (collectStep n record short finish) ⟨done.length, mask n f done, none⟩
        = ⟨n, mask n f (done ++ events.map Prod.fst),
            some (finish (mask n f (done ++ events.map Prod.fst)))⟩ := by
  intro events
  induction events with
  | nil => intro done hne _ _ _; exact absurd rfl hne
  | cons e rest ih =>
    intro done _ hlen hbound hrec
    have he1 : e.1 < n := hbound e (List.mem_cons_self e rest)
    have herec : record e.2 = some (f e.1) := hrec e (List.mem_cons_self e rest)
    have hset : (mask n f done).set e.1 (some (f e.1)) = mask n f (done ++ [e.1]) :=
      mask_set n f done e.1 he1
    by_cases hrest : rest = []
    · subst hrest
      have hn : done.length + 1 = n := by simpa using hlen
      have hstep : collectStep n record short finish ⟨done.length, mask n f done, none⟩ e
          = ⟨n, mask n f (done ++ [e.1]), some (finish (mask n f (done ++ [e.1])))⟩ := by
        simp [collectStep, herec, hset, hn, oneShot]
      simp only [List.foldl_cons, List.foldl_nil, hstep, List.map_cons, List.map_nil]
    · have hlt : done.length + 1 ≠ n := by
        have : rest.length ≠ 0 := by simpa [List.length_eq_zero] using hrest
        simp only [List.length_cons] at hlen; omega
      have hstep : collectStep n record short finish ⟨done.length, mask n f done, none⟩ e
          = ⟨(done ++ [e.1]).length, mask n f (done ++ [e.1]), none⟩ := by
        simp [collectStep, herec, hset, hlt]
      rw [List.foldl_cons, hstep]
      rw [ih (done ++ [e.1]) hrest
        (by simp only [List.length_append, List.length_cons, List.length_nil] at hlen ⊢; omega)
        (fun p hp => hbound p (List.mem_cons_of_mem e hp))
        (fun p hp => hrec p (List.mem_cons_of_mem e hp))]
      simp [List.append_assoc]

/-- Counterpart of the counting argument at the top level: events forming a
permutation of the input positions, all recorded, settle the outer promise
with the position-matched, fully populated results. -/
theorem collect_perm {α β : Type} (n : Nat) (record : Outcome → Option α)
    (short : Outcome → Option β) (finish : List (Option α) → β) (f : Nat → α)
    (events : List (Nat × Outcome))
    (hn : 0 < n)
    (hperm : (events.map Prod.fst).Perm (List.range n))
    (hrec : ∀ p ∈ events, record p.2 = some (f p.1)) :
    (collectRun n record short finish events).settled
      = some (finish ((List.range n).map (fun j => some (f j)))) := by
  have hlenev : events.length = n := by
    have := hperm.length_eq
    simpa using this
  have hne : events ≠ [] := by
    intro h
    rw [h] at hlenev
    simp at hlenev
    omega
  have hbound : ∀ p ∈ events, p.1 < n := by
    intro p hp
    have hm : p.1 ∈ events.map Prod.fst := List.mem_map_of_mem _ hp
    have := hperm.mem_iff.mp hm
    simpa using this
  have hinit : (⟨0, List.replicate n none, none⟩ : CollectState α β)
      = ⟨([] : List Nat).length, mask n f [], none⟩ := by
    simp [mask_nil]
  have haux := collect_perm_aux n record short finish f events [] hne
    (by simpa using hlenev) hbound hrec
  rw [collectRun, hinit, haux]
  have hfull : mask n f ([] ++ events.map Prod.fst)
      = (List.range n).map (fun j => some (f j)) := by
    apply mask_full
    intro j hj
    simp only [List.nil_append]
    exact hperm.mem_iff.mpr (List.mem_range.mpr hj)
  simp only [List.nil_append] at hfull
  simp [hfull]

/-- A short-circuit event arriving after only recorded events — too few to
have settled the outer promise — settles it at once with the short-circuit
payload, and it stays settled through any later events. -/
theorem collect_short {α β : Type} (n : Nat) (record : Outcome → Option α)
    (short : Outcome → Option β) (finish : List (Option α) → β)
    (pre post : List (Nat × Outcome)) (ev : Nat × Outcome) (b : β)
    (hpre : ∀ p ∈ pre, (record p.2).isSome)
    (hlt : pre.length < n)
    (hrec : record ev.2 = none)
    (hsh : short ev.2 = some b) :
    (collectRun n record short finish (pre ++ ev :: post)).settled = some b := by
  rw [collectRun, List.foldl_append, List.foldl_cons]
  have h0 := collectFold_no_trigger n record short finish pre
    ⟨0, List.replicate n none, none⟩ rfl hpre (by simpa using hlt)
  apply collectFold_settled_some
  simp [collectStep, hrec, hsh, h0.1, oneShot]

/-- C7: `Promise.all` — if every input fulfills, in whatever arrival order
(any permutation of the positions — completion is decided by the counter
reaching the input count, not by the collection length), the result fulfills
with the fulfillment values position-matched to input order; and if an input
rejects while the outer promise is still unsettled, the result rejects at
that very event with that first rejection reason, regardless of the events
after it and without waiting for positions that never report. -/
theorem c7_all_semantics (n : Nat) (f : Nat → JSVal)
    (events pre post : List (Nat × Outcome)) (i : Nat) (r : JSVal) :
    ((events.map Prod.fst).Perm (List.range n) →
      (∀ p ∈ events, p.2 = Outcome.fulfilledO (f p.1)) →
      allResult n events
        = some (.ok ((List.range n).map (fun j => some (f j))))) ∧
    ((∀ p ∈ pre, ∃ v, p.2 = Outcome.fulfilledO v) → pre.length < n →
      allResult n (pre ++ (i, Outcome.rejectedO r) :: post)
        = some (.error r)) := by
  constructor
  · intro hperm hful
    by_cases hn : n = 0
    · subst hn
      simp [allResult]
    · have hrec : ∀ p ∈ events, allRecord p.2 = some (f p.1) := by
        intro p hp
        rw [hful p hp]
        rfl
      rw [allResult, if_neg hn]
      exact collect_perm n allRecord allShort Except.ok f events
        (Nat.pos_of_ne_zero hn) hperm hrec
  · intro hpre hlt
    have hn : n ≠ 0 := by omega
    rw [allResult, if_neg hn]
    refine collect_short n allRecord allShort Except.ok pre post
      (i, Outcome.rejectedO r) (.error r) ?_ hlt rfl rfl
    intro p hp
    obtain ⟨v, hv⟩ := hpre p hp
    rw [hv]
    rfl

/-- C7 witness: out-of-order fulfillment of two inputs gives the
position-matched pair; and `all` over three inputs where input 0 fulfills,
input 1 rejects with "e" and input 2 never settles rejects with "e". -/
theorem c7_witness :
    (([(1, Outcome.fulfilledO (JSVal.num 1)), (0, Outcome.fulfilledO (JSVal.num 0))].map Prod.fst).Perm
      (List.range 2)) ∧
    (∀ p ∈ [(1, Outcome.fulfilledO (JSVal.num 1)), (0, Outcome.fulfilledO (JSVal.num 0))],
      p.2 = Outcome.fulfilledO (JSVal.num p.1)) ∧
    allResult 2 [(1, Outcome.fulfilledO (JSVal.num 1)), (0, Outcome.fulfilledO (JSVal.num 0))]
      = some (.ok [some (JSVal.num 0), some (JSVal.num 1)]) ∧
    allResult 3 [(0, Outcome.fulfilledO (JSVal.num 0)), (1, Outcome.rejectedO (JSVal.str "e"))]
      = some (.error (JSVal.str "e")) := by
  have ha := (c7_all_semantics 2 (fun j => JSVal.num j)
    [(1, Outcome.fulfilledO (JSVal.num 1)), (0, Outcome.fulfilledO (JSVal.num 0))]
    [] [] 0 JSVal.null).1 (by decide) (by decide)
  have hb := (c7_all_semantics 3 (fun j => JSVal.num j) []
    [(0, Outcome.fulfilledO (JSVal.num 0))] [] 1 (JSVal.str "e")).2
    (by intro p hp
        simp only [List.mem_singleton] at hp
        subst hp
        exact ⟨JSVal.num 0, rfl⟩) (by decide)
  refine ⟨by decide, by decide, ?_, ?_⟩
  · rw [ha]; rfl
  · exact hb

/-- C8: `Promise.any` — a fulfillment arriving while the outer promise is
still unsettled (in particular the first fulfillment, after only rejections)
fulfills the result with that input's value at once; and if every input
rejects, in whatever arrival order, the result rejects with the aggregate
holding `new Error(reason)` for every rejection reason, position-matched to
input order, triggered only once all inputs have rejected. -/
theorem c8_any_semantics (n : Nat) (g : Nat → JSVal)
    (events pre post : List (Nat × Outcome)) (i : Nat) (v : JSVal) :
    ((∀ p ∈ pre, ∃ r, p.2 = Outcome.rejectedO r) → pre.length < n →
      anyResult n (pre ++ (i, Outcome.fulfilledO v) :: post)
        = some (.ok v)) ∧
    ((events.map Prod.fst).Perm (List.range n) →
      (∀ p ∈ events, p.2 = Outcome.rejectedO (g p.1)) →
      anyResult n events
        = some (.error ((List.range n).map (fun j => some (JSVal.errObj (g j)))))) := by
  constructor
  · intro hpre hlt
    have hn : n ≠ 0 := by omega
    rw [anyResult, if_neg hn]
    refine collect_short n anyRecord anyShort Except.error pre post
      (i, Outcome.fulfilledO v) (.ok v) ?_ hlt rfl rfl
    intro p hp
    obtain ⟨r, hr⟩ := hpre p hp
    rw [hr]
    rfl
  · intro hperm hrej
    by_cases hn : n = 0
    · subst hn
      simp [anyResult]
    · have hrec : ∀ p ∈ events, anyRecord p.2 = some (JSVal.errObj (g p.1)) := by
        intro p hp
        rw [hrej p hp]
        rfl
      rw [anyResult, if_neg hn]
      exact collect_perm n anyRecord anyShort Except.error
        (fun j => JSVal.errObj (g j)) events (Nat.pos_of_ne_zero hn) hperm hrec

/-- C8 witness: `any` of two rejections "a", "b" rejects with the aggregate
`[Error("a"), Error("b")]` in input order; `any` of a rejection "a" then a
fulfillment `2` fulfills with `2`. -/
theorem c8_witness :
    anyResult 2 [(0, Outcome.rejectedO (JSVal.str "a")), (1, Outcome.rejectedO (JSVal.str "b"))]
      = some (.error [some (JSVal.errObj (JSVal.str "a")), some (JSVal.errObj (JSVal.str "b"))]) ∧
    anyResult 2 [(0, Outcome.rejectedO (JSVal.str "a")), (1, Outcome.fulfilledO (JSVal.num 2))]
      = some (.ok (JSVal.num 2)) := by
  have hb := (c8_any_semantics 2
    (fun j => if j = 0 then JSVal.str "a" else JSVal.str "b")
    [(0, Outcome.rejectedO (JSVal.str "a")), (1, Outcome.rejectedO (JSVal.str "b"))]
    [] [] 0 JSVal.null).2 (by decide) (by decide)
  have ha := (c8_any_semantics 2 (fun _ => JSVal.null) []
    [(0, Outcome.rejectedO (JSVal.str "a"))] [] 1 (JSVal.num 2)).1
    (by intro p hp
        simp only [List.mem_singleton] at hp
        subst hp
        exact ⟨JSVal.str "a", rfl⟩) (by decide)
  constructor
  · rw [hb]; rfl
  · exact ha

/-- C9: over an empty input collection, `all` and `allSettled` short-circuit
to an already-fulfilled result carrying `[]` before creating any per-element
subscription, `any` to an already-rejected result carrying the empty
aggregate; `race` has no empty-input branch, and since an empty input can
deliver no events (every event index would have to be below 0), its result
never settles. -/
theorem c9_empty_inputs (eventsA eventsS eventsY eventsR : List (Nat × Outcome))
    (hr : ∀ p ∈ eventsR, p.1 < 0) :
    allResult 0 eventsA = some (.ok []) ∧
    allSettledResult 0 eventsS = some [] ∧
    anyResult 0 eventsY = some (.error []) ∧
    raceResult eventsR = none := by
  refine ⟨rfl, rfl, rfl, ?_⟩
  cases eventsR with
  | nil => rfl
  | cons e rest => exact absurd (hr e (List.mem_cons_self e rest)) (by omega)

/-- C9 witness: the empty event stream. -/
theorem c9_witness :
    (∀ p ∈ ([] : List (Nat × Outcome)), p.1 < 0) ∧
    allResult 0 [] = some (.ok []) ∧
    allSettledResult 0 [] = some [] ∧
    anyResult 0 [] = some (.error []) ∧
    raceResult [] = none := by
  have h := c9_empty_inputs [] [] [] [] (by simp)
  exact ⟨by simp, h.1, h.2.1, h.2.2.1, h.2.2.2⟩
